import Mathlib

/-
Verification development for the stochastic Lanczos quadrature module
(gpytorch/utils/lanczos_quadrature.py, class StochasticLQ).

Shallow embedding conventions:
* Scalars are exact rationals (ℚ).  The host tensor library's square root
  (inside torch.norm) and its dense symmetric eigendecomposition (Tensor.symeig)
  are external capabilities consumed by the source, so the embedding takes them
  as function parameters (sq : ℚ → ℚ and symeig : Mat → List ℚ × Mat).
* A batch of probe vectors (a dim × num_vectors tensor in the source) is stored
  column-major: a list of num_vectors columns, each a list of dim rationals.
  Per the source's intent, every batched tensor operation acts independently on
  each probe column (reductions with dim=0, broadcasting of per-probe scalars,
  and the storage of each probe's basis column in Q); the embedding gives each
  such operation that per-column meaning.
* Fallible control flow is an Except value: the source raises a Python
  NameError when the iteration loop body never runs (the loop variable k is
  then undefined at the `if k == 1` test), and a tensor-size-mismatch runtime
  error when a k×k tridiagonal block is copied into the preallocated
  (num_iters-1)×(num_iters-1) slice of Ts with k ≠ num_iters-1.
-/

namespace StochasticLQ

abbrev Vec := List ℚ

abbrev Mat := List (List ℚ)

/-- Breakdown / indefiniteness tolerance 1e-4 from the source. -/
def tol : ℚ := 1 / 10000

/-- Residual stabilizer 1e-10 added elementwise in the source. -/
def eps10 : ℚ := 1 / 10 ^ 10

/-- Eigenvalue shift 1.1e-4 applied before each requested function. -/
def shift114 : ℚ := 11 / 100000

/-- Dot product of two vectors (a per-probe reduction over the dim axis). -/
def dotQ (v w : Vec) : ℚ := (List.zipWith (fun a b => a * b) v w).sum

def addV (v w : Vec) : Vec := List.zipWith (fun a b => a + b) v w

def subV (v w : Vec) : Vec := List.zipWith (fun a b => a - b) v w

def smulV (c : ℚ) (v : Vec) : Vec := v.map (fun x => c * x)

def divV (v : Vec) (c : ℚ) : Vec := v.map (fun x => x / c)

def addConstV (v : Vec) (c : ℚ) : Vec := v.map (fun x => x + c)

def zeroV (d : ℕ) : Vec := List.replicate d 0

/-- torch.norm(·, 2, dim=0) on one column, via the square root capability. -/
def norm2 (sq : ℚ → ℚ) (v : Vec) : ℚ := sq (dotQ v v)

/-- Batched Lanczos iteration state: per-probe current vector U, residual
rhs_vectors, stored basis columns Q[:, :, :k], and the recorded alpha and beta
coefficient rows. -/
structure LState where
  U : List Vec
  rhs : List Vec
  qs : List (List Vec)
  alphas : List (List ℚ)
  betas : List (List ℚ)
deriving Repr, DecidableEq

/-- Full re-orthogonalization U - Q (Qᵀ U) of one probe column against that
probe's stored basis columns. -/
def reorth (qcols : List Vec) (u : Vec) : Vec :=
  subV u (qcols.foldl (fun acc q => addV acc (smulV (dotQ q u) q)) (zeroV u.length))

/-- One iteration of StochasticLQ._lanczos_step_batch followed by the caller's
bookkeeping (recording alpha_k, beta_k and storing U as column k of Q). -/
def lanczos_step_batch (sq : ℚ → ℚ) (mm : List Vec → List Vec) (st : LState) : LState :=
  let norm_vs := st.rhs.map (norm2 sq)
  let origU := st.U
  let U1 := List.zipWith (fun r nv => divV r nv) st.rhs norm_vs
  let U2 := List.zipWith (fun qcols u => reorth qcols u) st.qs U1
  let U3 := U2.map (fun u => divV u (norm2 sq u))
  let MU := mm U3
  let Rv := List.zipWith (fun mu p => subV mu (smulV p.1 p.2)) MU (norm_vs.zip origU)
  let a := List.zipWith dotQ U3 Rv
  let rhs2 := List.zipWith (fun p u => addConstV (subV p.1 (smulV p.2 u)) eps10) (Rv.zip a) U3
  { U := U3
    rhs := rhs2
    qs := List.zipWith (fun qcols u => qcols ++ [u]) st.qs U3
    alphas := List.zipWith (fun l x => l ++ [x]) st.alphas a
    betas := List.zipWith (fun l x => l ++ [x]) st.betas norm_vs }

/-- The pre-loop phase of StochasticLQ.lanczos_batch: normalize each probe,
store it as column 0, apply the operator once and record alpha_0 and beta_0. -/
def lanczosInit (sq : ℚ → ℚ) (mm : List Vec → List Vec) (V : List Vec) : LState :=
  let u0 := V.map (fun v => divV v (norm2 sq v))
  let MU := mm u0
  let a := List.zipWith dotQ u0 MU
  let rhs := List.zipWith (fun p u => addConstV (subV p.1 (smulV p.2 u)) eps10) (MU.zip a) u0
  { U := u0
    rhs := rhs
    qs := u0.map (fun u => [u])
    alphas := a.map (fun x => [x])
    betas := rhs.map (fun r => [norm2 sq r]) }

/-- all(torch.abs(col) < 1e-4) over the batch, for the last recorded column. -/
def lastColAbsLt (c : ℚ) (ls : List (List ℚ)) : Bool :=
  ls.all (fun l => decide (|l.getLastD 0| < c))

/-- The batch-wide early-termination test of the source loop:
all(|beta[:, k]| < 1e-4) or all(|alpha[:, k]| < 1e-4). -/
def brkCond (st : LState) : Bool :=
  lastColAbsLt tol st.betas || lastColAbsLt tol st.alphas

/-- The `for k in range(1, num_iters)` loop with its batch-wide break.  The
returned number is the final value of the Python loop variable k (0 when the
body never executed, in which case k is in fact undefined in the source). -/
def lanczosLoopGo (sq : ℚ → ℚ) (mm : List Vec → List Vec) :
    ℕ → ℕ → LState → ℕ × LState
  | 0, kprev, st => (kprev, st)
  | fuel + 1, kprev, st =>
    let st2 := lanczos_step_batch sq mm st
    if brkCond st2 then (kprev + 1, st2)
    else lanczosLoopGo sq mm fuel (kprev + 1) st2

/-- Run the initial phase and the iteration loop of lanczos_batch, returning
the final loop index together with the final state. -/
def lanczosState (sq : ℚ → ℚ) (mm : List Vec → List Vec) (maxIter : ℕ)
    (V : List Vec) : ℕ × LState :=
  let dim := (V.headD []).length
  let numIters := min maxIter dim
  lanczosLoopGo sq mm (numIters - 1) 0 (lanczosInit sq mm V)

/-- The two ways an invocation of lanczos_batch raises in the source: the
NameError on the undefined loop variable when the loop body never ran, and the
size-mismatch error when a k×k tridiagonal block is copied into the
(num_iters-1)×(num_iters-1) slice of the preallocated Ts with k ≠ num_iters-1. -/
inductive LanczosErr where
  | nameErrorK : LanczosErr
  | sizeMismatch : LanczosErr
deriving Repr, DecidableEq

/-- torch.diag(v, off): square matrix of side len(v) + |off| carrying v on the
off-th diagonal. -/
def torchDiag (v : List ℚ) (off : ℤ) : Mat :=
  let s := v.length + off.natAbs
  (List.range s).map (fun (i : ℕ) => (List.range s).map (fun (j : ℕ) =>
    if (j : ℤ) = (i : ℤ) + off then (if 0 ≤ off then v.getD i 0 else v.getD j 0) else 0))

def madd (A B : Mat) : Mat := List.zipWith addV A B

/-- torch.diag(alpha) + torch.diag(beta, 1) + torch.diag(beta, -1). -/
def assembleT (al be : List ℚ) : Mat :=
  madd (madd (torchDiag al 0) (torchDiag be 1)) (torchDiag be (-1))

/-- StochasticLQ.lanczos_batch.  Returns per probe the truncated basis columns
Q[:, :, :k] (stored as a list of columns) and the tridiagonal matrix T (stored
as a list of rows). -/
def lanczos_batch (sq : ℚ → ℚ) (mm : List Vec → List Vec) (maxIter : ℕ)
    (V : List Vec) : Except LanczosErr (List (List Vec) × List Mat) :=
  let dim := (V.headD []).length
  let numIters := min maxIter dim
  let res := lanczosState sq mm maxIter V
  let k := res.1
  let st := res.2
  if k = 0 then .error .nameErrorK
  else if k = 1 then
    .ok (st.qs.map (fun q => q.take 1), st.alphas.map (fun l => [[l.getD 0 0]]))
  else if k = numIters - 1 then
    .ok (st.qs.map (fun q => q.take k),
      List.zipWith (fun al be => assembleT (al.take k) ((be.take k).drop 1)) st.alphas st.betas)
  else .error .sizeMismatch

/-- torch.min over a tensor of eigenvalues (nonempty in every source use). -/
def listMin1 : List ℚ → ℚ
  | [] => 0
  | x :: xs => xs.foldl min x

/-- T[:k, :k], the leading principal submatrix. -/
def leadingBlock (T : Mat) (k : ℕ) : Mat := (T.take k).map (fun row => row.take k)

/-- torch.min(T[:mid, :mid].symeig()[0]) as a function of the prefix size. -/
def minEigLeading (symeig : Mat → List ℚ × Mat) (T : Mat) (k : ℕ) : ℚ :=
  listMin1 (symeig (leadingBlock T k)).1

/-- The while-loop of StochasticLQ.binary_search_symeig, written with a fuel
argument for structural recursion; the initial fuel passed below strictly
exceeds the initial value of right - left, which decreases on every pass, so
the fuel never runs out on the source's entry conditions. -/
def bssLoop (minEig : ℕ → ℚ) : ℕ → ℕ → ℕ → ℕ
  | 0, left, _ => left
  | fuel + 1, left, right =>
    if right - left > 1 then
      let mid := (left + right) / 2
      if minEig mid < -tol then bssLoop minEig fuel left (mid - 1)
      else bssLoop minEig fuel mid right
    else left

/-- StochasticLQ.binary_search_symeig. -/
def binary_search_symeig (symeig : Mat → List ℚ × Mat) (T : Mat) : ℕ :=
  bssLoop (minEigLeading symeig T) (T.length + 1) 0 T.length

/-- The submatrix size used by the indefiniteness fallback in evaluate:
max(binary_search_symeig(T), 1). -/
def lastProper (symeig : Mat → List ℚ × Mat) (T : Mat) : ℕ :=
  max (binary_search_symeig symeig T) 1

/-- The per-probe eigendecomposition used by evaluate: T.symeig, replaced by
the eigendecomposition of the leading last_proper block when the minimum
eigenvalue is below -1e-4. -/
def probeEigs (symeig : Mat → List ℚ × Mat) (T : Mat) : List ℚ × Mat :=
  let fy := symeig T
  if listMin1 fy.1 < -tol then symeig (leadingBlock T (lastProper symeig T))
  else fy

/-- The quadrature accumulation of one probe for one requested function:
Y[0, :].pow(2).dot(func(f + 1.1e-4)). -/
def quadDot (fy : List ℚ × Mat) (func : ℚ → ℚ) : ℚ :=
  dotQ ((fy.2.headD []).map (fun y => y ^ 2)) (fy.1.map (fun lam => func (lam + shift114)))

/-- StochasticLQ.evaluate on the closure path: normalize the externally drawn
probe matrix, run lanczos_batch, then accumulate the per-probe quadrature
estimates for every requested function. -/
def evaluate (sq : ℚ → ℚ) (symeig : Mat → List ℚ × Mat)
    (mm : List Vec → List Vec) (maxIter numProbes : ℕ) (n : ℕ)
    (funcs : List (ℚ → ℚ)) (Vraw : List Vec) : Except LanczosErr (List ℚ) :=
  let V := Vraw.map (fun v => divV v (norm2 sq v))
  match lanczos_batch sq mm maxIter V with
  | .error e => .error e
  | .ok qt =>
    .ok ((List.range numProbes).foldl (fun results j =>
      let fy := probeEigs symeig (qt.2.getD j [])
      List.zipWith
        (fun r func => r + (n : ℚ) / (numProbes : ℚ) * quadDot fy func)
        results funcs)
      (funcs.map (fun _ => (0 : ℚ))))

/-- The two result shapes of evaluate: the scalar returned by the 1×1
shortcut, and the list of per-function estimates. -/
inductive SLQOut where
  | scalar (c : ℚ) : SLQOut
  | estimates (l : List ℚ) : SLQOut
deriving Repr, DecidableEq

/-- Tensor.numel. -/
def numel (M : Mat) : ℕ := (M.map List.length).sum

/-- lhs.matmul(tensor): multiply each probe column by the dense matrix. -/
def matmulCols (lhs : Mat) (cols : List Vec) : List Vec :=
  cols.map (fun v => lhs.map (fun row => dotQ row v))

/-- StochasticLQ.evaluate including its entry dispatch: a tensor argument with
numel == 1 short-circuits to math.fabs(lhs.squeeze()[0]); any other tensor is
wrapped in the default matmul closure. -/
def evaluateEntry (sq : ℚ → ℚ) (symeig : Mat → List ℚ × Mat)
    (maxIter numProbes : ℕ) (input : Mat ⊕ (List Vec → List Vec)) (n : ℕ)
    (funcs : List (ℚ → ℚ)) (Vraw : List Vec) : Except LanczosErr SLQOut :=
  match input with
  | .inl lhs =>
    if numel lhs = 1 then .ok (.scalar |(lhs.headD []).headD 0|)
    else (evaluate sq symeig (matmulCols lhs) maxIter numProbes n funcs Vraw).map .estimates
  | .inr mc => (evaluate sq symeig mc maxIter numProbes n funcs Vraw).map .estimates

/-- Instantiation of the external symmetric-eigendecomposition capability on
diagonal input matrices: the eigenvalues are exactly the diagonal entries and
the eigenvector matrix is the identity. -/
def idMat (s : ℕ) : Mat :=
  (List.range s).map (fun i => (List.range s).map (fun j => if j = i then 1 else 0))

def diagSymeig (M : Mat) : List ℚ × Mat :=
  (M.mapIdx (fun i row => row.getD i 0), idMat M.length)

/-! ### Concrete inputs used by the witnesses and counterexamples.

The vectors u0v, zv, ev, w1v, w2v, w3v form an orthonormal rational system in
dimension 16, with u0v, zv and the w-vectors orthogonal to the all-ones vector
and ev = ones/4.  The operator bigA is the symmetric 16×16 matrix
3·u0u0ᵀ + rB(u0zᵀ+zu0ᵀ) + zzᵀ + muB·eeᵀ + rB(w1w2ᵀ+w2w1ᵀ) + 2·w2w2ᵀ
+ (w2w3ᵀ+w3w2ᵀ) + w3w3ᵀ.  The scalars rB, nu1B satisfy
nu1B² = rB² + 16·(1e-10)², so the residual norms on the exact computation path
are rational, and muB = 1 - deltaB is tuned so that the probe u0v suffers
Lanczos breakdown (|beta_2| < 1e-4) exactly at iteration k = 2, while the
probe w1v has a three-step Krylov chain and does not break down. -/

def zeros (n : ℕ) : Vec := List.replicate n 0

def u0v : Vec := [1/2, 1/2, -1/2, -1/2] ++ zeros 12

def zv : Vec := [1/2, -1/2, 1/2, -1/2] ++ zeros 12

def ev : Vec := List.replicate 16 (1/4)

def w1v : Vec := zeros 4 ++ [1/2, 1/2, -1/2, -1/2] ++ zeros 8

def w2v : Vec := zeros 8 ++ [1/2, 1/2, -1/2, -1/2] ++ zeros 4

def w3v : Vec := zeros 12 ++ [1/2, 1/2, -1/2, -1/2]

def rB : ℚ := 1 - 4 / 10 ^ 20

def nu1B : ℚ := 1 + 4 / 10 ^ 20

def deltaB : ℚ := nu1B * (16 * eps10 ^ 2 + nu1B ^ 2) / (2 * rB ^ 2)

def muB : ℚ := 1 - deltaB

def outerQ (c : ℚ) (v w : Vec) : Mat := v.map (fun vi => w.map (fun wj => c * vi * wj))

def bigA : Mat :=
  madd (outerQ 3 u0v u0v) (madd (outerQ rB u0v zv) (madd (outerQ rB zv u0v)
  (madd (outerQ 1 zv zv) (madd (outerQ muB ev ev) (madd (outerQ rB w1v w2v)
  (madd (outerQ rB w2v w1v) (madd (outerQ 2 w2v w2v) (madd (outerQ 1 w2v w3v)
  (madd (outerQ 1 w3v w2v) (outerQ 1 w3v w3v))))))))))

def mmBig : List Vec → List Vec := matmulCols bigA

/-- The residual norm at the breakdown step of the probe u0v under bigA. -/
def beta2B : ℚ := 4 * eps10 * rB * deltaB / nu1B ^ 2

/-- Concrete instantiation of the external square-root capability (the square
root inside torch.norm): a finite table that is the exact square root on every
perfect-square argument the concrete runs below query, and the square root
rounded down to a nearby rational (the value of floor(sqrt(num·den))/den) on
the remaining queried arguments, mirroring the inexactness of the host
library's floating-point norm there. -/
def sqrtTab : List (ℚ × ℚ) :=
  [(1, 1),
   (25, 5),
   (4 * eps10 ^ 2, 2 * eps10),
   (nu1B ^ 2, nu1B),
   (beta2B ^ 2, beta2B),
   ((6103515624999999999755859375000000000400390625000000000019921875000000000000671875000000000000068125000000000000000275000000000000000001 : ℚ) /
      6103515625000000000488281249999999999990234374999999999998437499999999999999984375000000000000001250000000000000000025000000000000000000,
    (3051757812500000000061035156250000000092163085937500000010852050781249999998809265136718749999693426513671875000022421716308593750012987 : ℚ) /
      3051757812500000000244140624999999999995117187499999999999218749999999999999992187500000000000000625000000000000000012500000000000000000),
   ((390624999999999999687500000000000000063749999999999999999500000000000000000001 : ℚ) /
      390625000000000000187500000000000000023750000000000000000300000000000000000001,
    (624999999999999999750000000000000000001 : ℚ) /
      625000000000000000150000000000000000001),
   ((9313225746154785156622529029846191406339406967163085937539339065551757812504839897155761718750227928161621093749995269775390624999999066162109374999999975036621093750000000583496093750000000033398437500000000000257812499999999999997031250000000000000006250000000000000000 : ℚ) /
      9313225746154785156622529029846191406816244125366210937577486038208007812502551078796386718749983787536621093749997711181640624999999650035798549652100091558713465929034982652991265058517778516518405079841569093576434761285774400145190836340189562484198461914062668662169,
    (9313225746154785156622529029846191406577825546264648437558412551879882812500643730163574218749739646911621093750128326416015625000031584661453962326047259860167279839515676332160457968711961347032310068607345828831201389431953904844757779315113824536229665756225547279332 : ℚ) /
      9313225746154785156622529029846191406816244125366210937577486038208007812502551078796386718749983787536621093749997711181640624999999650035798549652100091558713465929034982652991265058517778516518405079841569093576434761285774400145190836340189562484198461914062668662169)]

def tabSqrt (q : ℚ) : ℚ := (sqrtTab.lookup q).getD 0

/-- A 2×2 diagonal test operator, used with the probe (3, 4). -/
def diag2A : Mat := [[1, 0], [0, 2]]

def probe34 : Vec := [3, 4]

/-- A 4×4 diagonal matrix whose leading principal submatrices have minimum
eigenvalue ≥ -1e-4 exactly for prefix sizes k ≤ 1. -/
def Tc3 : Mat := [[1, 0, 0, 0], [0, -10, 0, 0], [0, 0, -10, 0], [0, 0, 0, -10]]

/-- A 2×2 diagonal matrix all of whose leading principal submatrices have
minimum eigenvalue below -1e-4. -/
def Tc5 : Mat := [[-10, 0], [0, -10]]

/-- The state reached after m iterations of the loop body, ignoring the break
condition. -/
def stepIter (sq : ℚ → ℚ) (mm : List Vec → List Vec) (m : ℕ) (st : LState) : LState :=
  (lanczos_step_batch sq mm)^[m] st

/-- The early-termination condition as a proposition: every probe's
|beta_k| < 1e-4 or every probe's |alpha_k| < 1e-4, where the k-th coefficients
are the last entries recorded in the state. -/
def brkProp (st : LState) : Prop :=
  (∀ l ∈ st.betas, |l.getLastD 0| < tol) ∨ (∀ l ∈ st.alphas, |l.getLastD 0| < tol)

instance (st : LState) : Decidable (brkProp st) := by
  unfold brkProp; infer_instance

/-- The matrix described by the spec for the assembly step of the
Tridiagonalizer: a k×k symmetric tridiagonal matrix with the recorded alpha
coefficients on the main diagonal and the recorded beta coefficients starting
from beta[1] on the super- and sub-diagonals (beta[0] appears nowhere). -/
def tridiagMat (k : ℕ) (al be : List ℚ) : Mat :=
  (List.range k).map (fun i => (List.range k).map (fun j =>
    if j = i then al.getD i 0
    else if j = i + 1 then be.getD j 0
    else if i = j + 1 then be.getD i 0
    else 0))

/-- Matrix entry with the out-of-range default 0. -/
def entryQ (M : Mat) (i j : ℕ) : ℚ := (M.getD i []).getD j 0

/-- The state of a single probe extracted from a batched state. -/
def probeSt (st : LState) (j : ℕ) : LState :=
  { U := [st.U.getD j []], rhs := [st.rhs.getD j []], qs := [st.qs.getD j []],
    alphas := [st.alphas.getD j []], betas := [st.betas.getD j []] }

/-- Shape invariant of the batched iteration state: every outer component has
one entry per probe, and the recorded alpha and beta rows have one entry per
executed phase (the initial phase plus m loop iterations). -/
def battOK (p m : ℕ) (st : LState) : Prop :=
  st.U.length = p ∧ st.rhs.length = p ∧ st.qs.length = p ∧
  st.alphas.length = p ∧ st.betas.length = p ∧
  (∀ l ∈ st.alphas, l.length = m + 1) ∧ (∀ l ∈ st.betas, l.length = m + 1)

/-- The action of bigA on one probe column, so that mmBig = List.map mmCol. -/
def mmCol (v : Vec) : Vec := bigA.map (fun row => dotQ row v)

/-- A 3×3 diagonal matrix whose leading principal submatrices have minimum
eigenvalue ≥ -1e-4 exactly for prefix sizes k ≤ 2. -/
def Tc3w : Mat := [[1, 0, 0], [0, 1, 0], [0, 0, -10]]

end StochasticLQ

deriving instance DecidableEq for Except

namespace StochasticLQ

set_option maxRecDepth 8000

/-! ### Lemmas about the binary search over leading principal submatrices. -/

/-- When prefix validity is monotone with threshold K, every intermediate left
endpoint of the search stays at most K, so the returned value is at most K. -/
theorem bssLoop_le (minEig : ℕ → ℚ) (K n : ℕ)
    (hmono : ∀ k, 1 ≤ k → k ≤ n → (-tol ≤ minEig k ↔ k ≤ K)) :
    ∀ fuel left right, left ≤ K → right ≤ n →
      bssLoop minEig fuel left right ≤ K := by
  intro fuel
  induction fuel with
  | zero => intro left right hL _; simpa [bssLoop] using hL
  | succ f ih =>
    intro left right hL hR
    simp only [bssLoop]
    split
    · rename_i hgt
      split
      · exact ih left _ hL (by omega)
      · rename_i hval
        refine ih _ right ?_ hR
        have h1 : 1 ≤ (left + right) / 2 := by omega
        have h2 : (left + right) / 2 ≤ n := by omega
        exact (hmono _ h1 h2).mp (le_of_not_lt hval)
    · exact hL

/-- The left endpoint of the search is 0 or a valid prefix size throughout. -/
theorem bssLoop_valid (minEig : ℕ → ℚ) :
    ∀ fuel left right, (left = 0 ∨ -tol ≤ minEig left) →
      (bssLoop minEig fuel left right = 0 ∨
        -tol ≤ minEig (bssLoop minEig fuel left right)) := by
  intro fuel
  induction fuel with
  | zero => intro left right h; simpa [bssLoop] using h
  | succ f ih =>
    intro left right h
    simp only [bssLoop]
    split
    · split
      · exact ih _ _ h
      · rename_i hval
        exact ih _ _ (Or.inr (le_of_not_lt hval))
    · exact h

/-! ### Lemmas about the Lanczos iteration loop. -/

theorem brkCond_iff_brkProp (st : LState) : brkCond st = true ↔ brkProp st := by
  simp [brkCond, lastColAbsLt, brkProp, List.all_eq_true]

theorem brkCond_eq_false_iff (st : LState) : brkCond st = false ↔ ¬ brkProp st := by
  rw [← brkCond_iff_brkProp]
  cases brkCond st <;> simp

theorem lanczosLoopGo_ge (sq : ℚ → ℚ) (mm : List Vec → List Vec) :
    ∀ fuel kprev st, kprev ≤ (lanczosLoopGo sq mm fuel kprev st).1 := by
  intro fuel
  induction fuel with
  | zero => intro kprev st; simp [lanczosLoopGo]
  | succ f ih =>
    intro kprev st
    simp only [lanczosLoopGo]
    split
    · simp
    · exact le_trans (Nat.le_succ kprev) (ih (kprev + 1) _)

/-- If no break occurs within the fuel, the loop runs the full fuel and the
loop variable ends at kprev + fuel. -/
theorem lanczosLoopGo_noBreak (sq : ℚ → ℚ) (mm : List Vec → List Vec) :
    ∀ fuel kprev st,
      (∀ j, 1 ≤ j → j ≤ fuel → brkCond (stepIter sq mm j st) = false) →
      lanczosLoopGo sq mm fuel kprev st = (kprev + fuel, stepIter sq mm fuel st) := by
  intro fuel
  induction fuel with
  | zero => intro kprev st _; simp [lanczosLoopGo, stepIter]
  | succ f ih =>
    intro kprev st hno
    simp only [lanczosLoopGo]
    have h1 : brkCond (lanczos_step_batch sq mm st) = false := by
      have := hno 1 le_rfl (by omega)
      simpa [stepIter] using this
    rw [if_neg (by simp [h1])]
    have := ih (kprev + 1) (lanczos_step_batch sq mm st) (by
      intro j hj1 hjf
      have := hno (j + 1) (by omega) (by omega)
      simpa [stepIter, Function.iterate_succ_apply] using this)
    rw [this]
    simp [stepIter, Function.iterate_succ_apply]
    omega

/-- If the first break occurs at iteration m within the fuel, the loop stops
there with loop variable kprev + m and the state of the m-th iteration. -/
theorem lanczosLoopGo_break (sq : ℚ → ℚ) (mm : List Vec → List Vec) :
    ∀ m fuel kprev st, 1 ≤ m → m ≤ fuel →
      brkCond (stepIter sq mm m st) = true →
      (∀ j, 1 ≤ j → j < m → brkCond (stepIter sq mm j st) = false) →
      lanczosLoopGo sq mm fuel kprev st = (kprev + m, stepIter sq mm m st) := by
  intro m
  induction m with
  | zero => intro fuel kprev st hm; omega
  | succ m ih =>
    intro fuel kprev st _ hmf hbrk hbefore
    obtain ⟨f, rfl⟩ : ∃ f, fuel = f + 1 := ⟨fuel - 1, by omega⟩
    simp only [lanczosLoopGo]
    by_cases hm0 : m = 0
    · subst hm0
      rw [if_pos (by simpa [stepIter] using hbrk)]
      simp [stepIter]
    · have h1 : brkCond (lanczos_step_batch sq mm st) = false := by
        have := hbefore 1 le_rfl (by omega)
        simpa [stepIter] using this
      rw [if_neg (by simp [h1])]
      have := ih f (kprev + 1) (lanczos_step_batch sq mm st) (by omega) (by omega)
        (by simpa [stepIter, Function.iterate_succ_apply] using hbrk)
        (by
          intro j hj1 hjm
          have := hbefore (j + 1) (by omega) (by omega)
          simpa [stepIter, Function.iterate_succ_apply] using this)
      rw [this]
      rw [Prod.mk.injEq]
      constructor
      · omega
      · simp [stepIter, Function.iterate_succ_apply]

/-! ### Shape and indexing lemmas. -/

theorem getDh {α : Type} (l : List α) (d : α) {j : ℕ} (h : j < l.length) :
    l.getD j d = l.get ⟨j, h⟩ := by
  simp [List.getD_eq_getElem?_getD, List.getElem?_eq_getElem h]

theorem length_torchDiag (v : List ℚ) (off : ℤ) :
    (torchDiag v off).length = v.length + off.natAbs := by
  simp [torchDiag]

theorem length_madd (A B : Mat) : (madd A B).length = min A.length B.length := by
  simp [madd]

theorem length_assembleT_le (al be : List ℚ) : (assembleT al be).length ≤ al.length := by
  simp [assembleT, length_madd, length_torchDiag]

theorem lanczosLoopGo_le (sq : ℚ → ℚ) (mm : List Vec → List Vec) :
    ∀ fuel kprev st, (lanczosLoopGo sq mm fuel kprev st).1 ≤ kprev + fuel := by
  intro fuel
  induction fuel with
  | zero => intro kprev st; simp [lanczosLoopGo]
  | succ f ih =>
    intro kprev st
    simp only [lanczosLoopGo]
    split
    · show kprev + 1 ≤ kprev + (f + 1)
      omega
    · exact le_trans (ih (kprev + 1) _) (by omega)

theorem getD_map_range {β : Type} (d : β) (f : ℕ → β) (k i : ℕ) :
    ((List.range k).map f).getD i d = if i < k then f i else d := by
  by_cases hi : i < k
  · rw [getDh _ _ (by simpa using hi)]
    simp [hi]
  · rw [List.getD_eq_getElem?_getD, List.getElem?_eq_none (by simpa using hi)]
    simp [hi]

theorem entryQ_tridiagMat (k : ℕ) (al be : List ℚ) (i j : ℕ) :
    entryQ (tridiagMat k al be) i j =
      if i < k ∧ j < k then
        (if j = i then al.getD i 0
         else if j = i + 1 then be.getD j 0
         else if i = j + 1 then be.getD i 0
         else 0)
      else 0 := by
  unfold entryQ tridiagMat
  rw [getD_map_range]
  by_cases hi : i < k
  · simp only [hi, if_true]
    rw [getD_map_range]
    by_cases hj : j < k
    · simp [hi, hj]
    · simp [hi, hj]
  · simp [hi, List.getD_eq_getElem?_getD]

theorem tridiagMat_symm (k : ℕ) (al be : List ℚ) (i j : ℕ) :
    entryQ (tridiagMat k al be) i j = entryQ (tridiagMat k al be) j i := by
  rw [entryQ_tridiagMat, entryQ_tridiagMat]
  split_ifs <;> first | rfl | omega | (subst_vars; rfl)

theorem getD_take (l : List ℚ) (k i : ℕ) (hik : i < k) (hkl : k ≤ l.length) :
    (l.take k).getD i 0 = l.getD i 0 := by
  have h1 : i < (l.take k).length := by simp; omega
  have h2 : i < l.length := by omega
  rw [List.getD_eq_getElem?_getD, List.getD_eq_getElem?_getD,
    List.getElem?_eq_getElem h1, List.getElem?_eq_getElem h2]
  simp

theorem getD_drop_take (l : List ℚ) (k i : ℕ) (hik : i + 1 < k) (hkl : k ≤ l.length) :
    ((l.take k).drop 1).getD i 0 = l.getD (i + 1) 0 := by
  have h1 : i < ((l.take k).drop 1).length := by simp; omega
  have h2 : i + 1 < l.length := by omega
  rw [List.getD_eq_getElem?_getD, List.getD_eq_getElem?_getD,
    List.getElem?_eq_getElem h1, List.getElem?_eq_getElem h2]
  have h3 : 1 + i = i + 1 := by omega
  simp [h3]

theorem assembleT_eq_tridiagMat (k : ℕ) (al be : List ℚ) (hk : 1 ≤ k)
    (hal : k ≤ al.length) (hbe : k ≤ be.length) :
    assembleT (al.take k) ((be.take k).drop 1) = tridiagMat k al be := by
  apply List.ext_getElem
  · simp [assembleT, length_madd, length_torchDiag, tridiagMat]
    omega
  · intro i h1 h2
    have hik : i < k := by
      simp [tridiagMat] at h2; omega
    simp only [assembleT, madd, List.getElem_zipWith]
    simp only [torchDiag, List.getElem_map, List.getElem_range, tridiagMat]
    apply List.ext_getElem
    · simp [addV]
      omega
    · intro j hj1 hj2
      have hjk : j < k := by
        simp at hj2; omega
      simp only [addV, List.getElem_zipWith, List.getElem_map, List.getElem_range]
      have e0 : ((0:ℤ) ≤ 0) = True := by simp
      have e1 : ((0:ℤ) ≤ 1) = True := by simp
      have em : ((0:ℤ) ≤ -1) = False := by simp
      simp only [e0, e1, em, if_true, if_false]
      by_cases hji : j = i
      · subst hji
        have c1 : ((j:ℤ) = (j:ℤ) + 0) := by omega
        have c2 : ¬((j:ℤ) = (j:ℤ) + 1) := by omega
        have c3 : ¬((j:ℤ) = (j:ℤ) + -1) := by omega
        rw [if_pos c1, if_neg c2, if_neg c3, if_pos rfl,
          getD_take al k j hjk hal]
        ring
      · by_cases hji1 : j = i + 1
        · subst hji1
          have c1 : ¬((i:ℤ) + 1 = (i:ℤ) + 0) := by omega
          have c2 : ((i:ℤ) + 1 = (i:ℤ) + 1) := by omega
          have c3 : ¬((i:ℤ) + 1 = (i:ℤ) + -1) := by omega
          have d2 : i + 1 = i + 1 := rfl
          rw [show ((i+1 : ℕ):ℤ) = (i:ℤ) + 1 by push_cast; ring] 
          rw [if_neg c1, if_pos c2, if_neg c3, if_neg (by omega), if_pos d2,
            getD_drop_take be k i (by omega) hbe]
          ring
        · by_cases hij1 : i = j + 1
          · have c1 : ¬((j:ℤ) = (i:ℤ) + 0) := by omega
            have c2 : ¬((j:ℤ) = (i:ℤ) + 1) := by omega
            have c3 : ((j:ℤ) = (i:ℤ) + -1) := by omega
            rw [if_neg c1, if_neg c2, if_pos c3, if_neg (by omega),
              if_neg (by omega), if_pos hij1,
              getD_drop_take be k j (by omega) hbe,
              show j + 1 = i by omega]
            ring
          · have c1 : ¬((j:ℤ) = (i:ℤ) + 0) := by omega
            have c2 : ¬((j:ℤ) = (i:ℤ) + 1) := by omega
            have c3 : ¬((j:ℤ) = (i:ℤ) + -1) := by omega
            rw [if_neg c1, if_neg c2, if_neg c3, if_neg (by omega),
              if_neg (by omega), if_neg (by omega)]
            ring

theorem getD_map_of_lt {α β : Type} (f : α → β) (l : List α) (j : ℕ) (d : β) (d2 : α)
    (h : j < l.length) : (l.map f).getD j d = f (l.getD j d2) := by
  rw [List.getD_eq_getElem?_getD, List.getD_eq_getElem?_getD,
    List.getElem?_eq_getElem (by simpa using h), List.getElem?_eq_getElem h]
  simp

theorem getD_zipWith {α β γ : Type} (f : α → β → γ) (a : List α) (b : List β) (j : ℕ)
    (d : γ) (da : α) (db : β) (ha : j < a.length) (hb : j < b.length) :
    (List.zipWith f a b).getD j d = f (a.getD j da) (b.getD j db) := by
  rw [List.getD_eq_getElem?_getD, List.getD_eq_getElem?_getD, List.getD_eq_getElem?_getD,
    List.getElem?_eq_getElem (by simp; omega), List.getElem?_eq_getElem ha,
    List.getElem?_eq_getElem hb]
  simp

theorem lanczosLoopGo_snd (sq : ℚ → ℚ) (mm : List Vec → List Vec) :
    ∀ fuel kprev st, (lanczosLoopGo sq mm fuel kprev st).2 =
      stepIter sq mm ((lanczosLoopGo sq mm fuel kprev st).1 - kprev) st := by
  intro fuel
  induction fuel with
  | zero => intro kprev st; simp [lanczosLoopGo, stepIter]
  | succ f ih =>
    intro kprev st
    simp only [lanczosLoopGo]
    split
    · simp [stepIter]
    · have hge := lanczosLoopGo_ge sq mm f (kprev + 1) (lanczos_step_batch sq mm st)
      rw [ih (kprev + 1) (lanczos_step_batch sq mm st)]
      have harith :
          (lanczosLoopGo sq mm f (kprev + 1) (lanczos_step_batch sq mm st)).1 - kprev =
            ((lanczosLoopGo sq mm f (kprev + 1) (lanczos_step_batch sq mm st)).1 - (kprev + 1)) + 1 := by
        omega
      rw [harith]
      simp [stepIter, Function.iterate_succ_apply]

theorem battOK_init (sq : ℚ → ℚ) (mm : List Vec → List Vec) (V : List Vec)
    (hmm : ∀ W : List Vec, (mm W).length = W.length) :
    battOK V.length 0 (lanczosInit sq mm V) := by
  unfold battOK lanczosInit
  refine ⟨?_, ?_, ?_, ?_, ?_, ?_, ?_⟩ <;>
    simp [hmm, List.length_zipWith, List.mem_map]

theorem battOK_step (sq : ℚ → ℚ) (mm : List Vec → List Vec) (p m : ℕ) (st : LState)
    (hmm : ∀ W : List Vec, (mm W).length = W.length) (h : battOK p m st) :
    battOK p (m + 1) (lanczos_step_batch sq mm st) := by
  obtain ⟨hU, hrhs, hqs, hal, hbe, hial, hibe⟩ := h
  unfold battOK lanczos_step_batch
  refine ⟨?_, ?_, ?_, ?_, ?_, ?_, ?_⟩ <;>
    simp [hmm, List.length_zipWith, hU, hrhs, hqs, hal, hbe]
  · intro l hl
    rw [List.mem_iff_getElem] at hl
    obtain ⟨i, hi, rfl⟩ := hl
    rw [List.getElem_zipWith]
    simp
    exact hial _ (List.getElem_mem _)
  · intro l hl
    rw [List.mem_iff_getElem] at hl
    obtain ⟨i, hi, rfl⟩ := hl
    rw [List.getElem_zipWith]
    simp
    exact hibe _ (List.getElem_mem _)

theorem battOK_iter (sq : ℚ → ℚ) (mm : List Vec → List Vec) (p : ℕ) (st0 : LState)
    (hmm : ∀ W : List Vec, (mm W).length = W.length) (h0 : battOK p 0 st0) :
    ∀ m, battOK p m (stepIter sq mm m st0) := by
  intro m
  induction m with
  | zero => simpa [stepIter] using h0
  | succ m ih =>
    have : stepIter sq mm (m + 1) st0 = lanczos_step_batch sq mm (stepIter sq mm m st0) := by
      simp [stepIter, Function.iterate_succ_apply']
    rw [this]
    exact battOK_step sq mm p m _ hmm ih

theorem tridiagMat_one (al be : List ℚ) : tridiagMat 1 al be = [[al.getD 0 0]] := by
  have h1 : List.range 1 = [0] := rfl
  simp [tridiagMat, h1]

/-! ### Per-probe locality of the batched iteration. -/

theorem lanczos_step_batch_probe (sq : ℚ → ℚ) (f : Vec → Vec) (st : LState) (p j : ℕ) (hj : j < p)
    (hU : st.U.length = p) (hrhs : st.rhs.length = p) (hqs : st.qs.length = p)
    (hal : st.alphas.length = p) (hbe : st.betas.length = p) :
    lanczos_step_batch sq (List.map f) (probeSt st j) =
      probeSt (lanczos_step_batch sq (List.map f) st) j := by
  have hjU : j < st.U.length := by omega
  have hjr : j < st.rhs.length := by omega
  have hjq : j < st.qs.length := by omega
  have hja : j < st.alphas.length := by omega
  have hjb : j < st.betas.length := by omega
  have hnv : (st.rhs.map (norm2 sq)).getD j 0 = norm2 sq (st.rhs.getD j []) :=
    getD_map_of_lt _ _ j 0 [] hjr
  have hU1 : (List.zipWith (fun r nv => divV r nv) st.rhs (st.rhs.map (norm2 sq))).getD j []
      = divV (st.rhs.getD j []) (norm2 sq (st.rhs.getD j [])) := by
    rw [getD_zipWith _ _ _ j [] [] 0 hjr (by simpa using hjr), hnv]
  have hU2 : (List.zipWith (fun qcols u => reorth qcols u) st.qs
        (List.zipWith (fun r nv => divV r nv) st.rhs (st.rhs.map (norm2 sq)))).getD j []
      = reorth (st.qs.getD j [])
          (divV (st.rhs.getD j []) (norm2 sq (st.rhs.getD j []))) := by
    rw [getD_zipWith _ _ _ j [] [] [] hjq (by simp; omega), hU1]
  have hU3 : ((List.zipWith (fun qcols u => reorth qcols u) st.qs
        (List.zipWith (fun r nv => divV r nv) st.rhs (st.rhs.map (norm2 sq)))).map
          (fun u => divV u (norm2 sq u))).getD j []
      = divV (reorth (st.qs.getD j [])
            (divV (st.rhs.getD j []) (norm2 sq (st.rhs.getD j []))))
          (norm2 sq (reorth (st.qs.getD j [])
            (divV (st.rhs.getD j []) (norm2 sq (st.rhs.getD j []))))) := by
    rw [getD_map_of_lt _ _ j [] [] (by simp; omega), hU2]
  set u3j := divV (reorth (st.qs.getD j [])
      (divV (st.rhs.getD j []) (norm2 sq (st.rhs.getD j []))))
    (norm2 sq (reorth (st.qs.getD j [])
      (divV (st.rhs.getD j []) (norm2 sq (st.rhs.getD j []))))) with hu3j
  set U3b := (List.zipWith (fun qcols u => reorth qcols u) st.qs
      (List.zipWith (fun r nv => divV r nv) st.rhs (st.rhs.map (norm2 sq)))).map
    (fun u => divV u (norm2 sq u)) with hU3b
  have hlU3 : U3b.length = p := by rw [hU3b]; simp; omega
  have hMU : (U3b.map f).getD j [] = f u3j := by
    rw [getD_map_of_lt _ _ j [] [] (by omega), hU3]
  have hzip1 : ((st.rhs.map (norm2 sq)).zip st.U).getD j (0, [])
      = (norm2 sq (st.rhs.getD j []), st.U.getD j []) := by
    rw [List.zip]
    rw [getD_zipWith _ _ _ j (0, []) 0 [] (by simpa using hjr) hjU, hnv]
  have hRv : (List.zipWith (fun mu pr => subV mu (smulV pr.1 pr.2)) (U3b.map f)
        ((st.rhs.map (norm2 sq)).zip st.U)).getD j []
      = subV (f u3j) (smulV (norm2 sq (st.rhs.getD j [])) (st.U.getD j [])) := by
    rw [getD_zipWith _ _ _ j [] [] (0, []) (by simp; omega) (by simp; omega), hMU, hzip1]
  set Rvb := List.zipWith (fun mu pr => subV mu (smulV pr.1 pr.2)) (U3b.map f)
    ((st.rhs.map (norm2 sq)).zip st.U) with hRvb
  set rvj := subV (f u3j) (smulV (norm2 sq (st.rhs.getD j [])) (st.U.getD j [])) with hrvj
  have hlRv : Rvb.length = p := by rw [hRvb]; simp; omega
  have ha2 : (List.zipWith dotQ U3b Rvb).getD j 0 = dotQ u3j rvj := by
    rw [getD_zipWith _ _ _ j 0 [] [] (by omega) (by omega), hU3, hRv]
  have hzip2 : (Rvb.zip (List.zipWith dotQ U3b Rvb)).getD j ([], 0)
      = (rvj, dotQ u3j rvj) := by
    rw [List.zip]
    rw [getD_zipWith _ _ _ j ([], 0) [] 0 (by omega) (by simp; omega), hRv, ha2]
  have hrhs2 : (List.zipWith (fun pr u => addConstV (subV pr.1 (smulV pr.2 u)) eps10)
        (Rvb.zip (List.zipWith dotQ U3b Rvb)) U3b).getD j []
      = addConstV (subV rvj (smulV (dotQ u3j rvj) u3j)) eps10 := by
    rw [getD_zipWith _ _ _ j [] ([], 0) [] (by simp; omega) (by omega), hzip2, hU3]
  have hqs2 : (List.zipWith (fun qcols u => qcols ++ [u]) st.qs U3b).getD j []
      = st.qs.getD j [] ++ [u3j] := by
    rw [getD_zipWith _ _ _ j [] [] [] hjq (by omega), hU3]
  have hal2 : (List.zipWith (fun l x => l ++ [x]) st.alphas
        (List.zipWith dotQ U3b Rvb)).getD j []
      = st.alphas.getD j [] ++ [dotQ u3j rvj] := by
    rw [getD_zipWith _ _ _ j [] [] 0 hja (by simp; omega), ha2]
  have hbe2 : (List.zipWith (fun l x => l ++ [x]) st.betas (st.rhs.map (norm2 sq))).getD j []
      = st.betas.getD j [] ++ [norm2 sq (st.rhs.getD j [])] := by
    rw [getD_zipWith _ _ _ j [] [] 0 hjb (by simpa using hjr), hnv]
  show lanczos_step_batch sq (List.map f) (probeSt st j) = _
  unfold lanczos_step_batch probeSt
  simp only [LState.mk.injEq]
  refine ⟨?_, ?_, ?_, ?_, ?_⟩
  · simp only [List.map_cons, List.map_nil, List.zipWith_cons_cons, List.zipWith_nil_right]
    rw [hU3]
  · simp only [List.map_cons, List.map_nil, List.zipWith_cons_cons, List.zipWith_nil_right,
      List.zip_cons_cons, List.zip_nil_right]
    rw [hrhs2]
  · simp only [List.map_cons, List.map_nil, List.zipWith_cons_cons, List.zipWith_nil_right]
    rw [hqs2]
  · simp only [List.map_cons, List.map_nil, List.zipWith_cons_cons, List.zipWith_nil_right,
      List.zip_cons_cons, List.zip_nil_right]
    rw [hal2]
  · simp only [List.map_cons, List.map_nil, List.zipWith_cons_cons, List.zipWith_nil_right]
    rw [hbe2]

theorem lanczosInit_probe (sq : ℚ → ℚ) (f : Vec → Vec) (V : List Vec) (j : ℕ)
    (hj : j < V.length) :
    lanczosInit sq (List.map f) [V.getD j []] =
      probeSt (lanczosInit sq (List.map f) V) j := by
  have hu0 : (V.map (fun v => divV v (norm2 sq v))).getD j []
      = divV (V.getD j []) (norm2 sq (V.getD j [])) :=
    getD_map_of_lt _ _ j [] [] hj
  set u0b := V.map (fun v => divV v (norm2 sq v)) with hu0b
  set u0j := divV (V.getD j []) (norm2 sq (V.getD j [])) with hu0j
  have hlu : u0b.length = V.length := by rw [hu0b]; simp
  have hMU : (u0b.map f).getD j [] = f u0j := by
    rw [getD_map_of_lt _ _ j [] [] (by omega), hu0]
  have ha : (List.zipWith dotQ u0b (u0b.map f)).getD j 0 = dotQ u0j (f u0j) := by
    rw [getD_zipWith _ _ _ j 0 [] [] (by omega) (by simp; omega), hu0, hMU]
  have hzip : ((u0b.map f).zip (List.zipWith dotQ u0b (u0b.map f))).getD j ([], 0)
      = (f u0j, dotQ u0j (f u0j)) := by
    rw [List.zip]
    rw [getD_zipWith _ _ _ j ([], 0) [] 0 (by simp; omega) (by simp; omega), hMU, ha]
  have hrhs : (List.zipWith (fun pr u => addConstV (subV pr.1 (smulV pr.2 u)) eps10)
        ((u0b.map f).zip (List.zipWith dotQ u0b (u0b.map f))) u0b).getD j []
      = addConstV (subV (f u0j) (smulV (dotQ u0j (f u0j)) u0j)) eps10 := by
    rw [getD_zipWith _ _ _ j [] ([], 0) [] (by simp; omega) (by omega), hzip, hu0]
  have hqs : (u0b.map (fun u => [u])).getD j [] = [u0j] := by
    rw [getD_map_of_lt _ _ j [] [] (by omega), hu0]
  have hala : ((List.zipWith dotQ u0b (u0b.map f)).map (fun x => [x])).getD j []
      = [dotQ u0j (f u0j)] := by
    rw [getD_map_of_lt _ _ j [] 0 (by simp; omega), ha]
  have hbeb : ((List.zipWith (fun pr u => addConstV (subV pr.1 (smulV pr.2 u)) eps10)
        ((u0b.map f).zip (List.zipWith dotQ u0b (u0b.map f))) u0b).map
          (fun r => [norm2 sq r])).getD j []
      = [norm2 sq (addConstV (subV (f u0j) (smulV (dotQ u0j (f u0j)) u0j)) eps10)] := by
    rw [getD_map_of_lt _ _ j [] [] (by simp; omega), hrhs]
  unfold lanczosInit probeSt
  simp only [LState.mk.injEq]
  refine ⟨?_, ?_, ?_, ?_, ?_⟩
  · simp only [List.map_cons, List.map_nil, List.zipWith_cons_cons, List.zipWith_nil_right]
    rw [hu0]
  · simp only [List.map_cons, List.map_nil, List.zipWith_cons_cons, List.zipWith_nil_right,
      List.zip_cons_cons, List.zip_nil_right]
    rw [hrhs]
  · simp only [List.map_cons, List.map_nil, List.zipWith_cons_cons, List.zipWith_nil_right]
    rw [hqs]
  · simp only [List.map_cons, List.map_nil, List.zipWith_cons_cons, List.zipWith_nil_right,
      List.zip_cons_cons, List.zip_nil_right]
    rw [hala]
  · simp only [List.map_cons, List.map_nil, List.zipWith_cons_cons, List.zipWith_nil_right,
      List.zip_cons_cons, List.zip_nil_right]
    rw [hbeb]

/-! ### The quadrature accumulation as a closed sum. -/

theorem zipWith_map_self {α β : Type} (l : List α) (F : α → β) (h : β → α → β) :
    List.zipWith h (l.map F) l = l.map (fun x => h (F x) x) := by
  induction l with
  | nil => simp
  | cons x xs ih => simp [ih]

theorem foldl_zipWith_sum (g : ℕ → (ℚ → ℚ) → ℚ) (funcs : List (ℚ → ℚ)) (m : ℕ) :
    (List.range m).foldl
        (fun results j => List.zipWith (fun r func => r + g j func) results funcs)
        (funcs.map (fun _ => 0))
      = funcs.map (fun func => ((List.range m).map (fun j => g j func)).sum) := by
  induction m with
  | zero => simp
  | succ m ih =>
    rw [List.range_succ, List.foldl_append, ih]
    simp only [List.foldl_cons, List.foldl_nil]
    rw [zipWith_map_self]
    simp [List.map_append]

/-! ### The claims. -/

attribute [local semireducible] Rat.add Rat.sub Rat.mul Rat.inv Rat.ofScientific

/-- C1: for every set of requested functions and every probe batch for which
the Lanczos reduction returns tridiagonal matrices Ts, the estimate evaluate
returns for f_i equals the sum over the numProbes probes of
(n / numProbes) · Σ_nodes Y[0, node]² · f_i(eigenvalue_node + 1.1e-4), where
the eigenvalues and eigenvector matrix Y of probe j come from the symmetric
eigendecomposition of that probe's (possibly fallback-truncated) tridiagonal
matrix (probeEigs), and the 1.1e-4 shift is applied to every eigenvalue node
before f_i is evaluated (inside quadDot). -/
theorem claim_C1_quadrature_formula (sq : ℚ → ℚ) (symeig : Mat → List ℚ × Mat)
    (mm : List Vec → List Vec) (maxIter numProbes n : ℕ) (funcs : List (ℚ → ℚ))
    (Vraw : List Vec) (Qs : List (List Vec)) (Ts : List Mat)
    (h : lanczos_batch sq mm maxIter (Vraw.map (fun v => divV v (norm2 sq v))) = .ok (Qs, Ts)) :
    evaluate sq symeig mm maxIter numProbes n funcs Vraw =
      .ok (funcs.map (fun func =>
        ((List.range numProbes).map (fun j =>
          (n : ℚ) / (numProbes : ℚ) *
            quadDot (probeEigs symeig (Ts.getD j [])) func)).sum)) := by
  unfold evaluate
  simp only []
  rw [h]
  exact congrArg Except.ok (foldl_zipWith_sum
    (fun j func => (n : ℚ) / (numProbes : ℚ) *
      quadDot (probeEigs symeig (Ts.getD j [])) func) funcs numProbes)

/-- C1 witness: the 2×2 diagonal operator diag(1, 2) with probe (3, 4),
max_iter = 2 and one probe, evaluated on the identity function. -/
theorem claim_C1_quadrature_formula_witness :
    evaluate tabSqrt diagSymeig (matmulCols diag2A) 2 1 2 [fun x => x] [probe34] =
      .ok ([fun x => x].map (fun func =>
        ((List.range 1).map (fun j =>
          (2 : ℚ) / (1 : ℚ) *
            quadDot (probeEigs diagSymeig (([[[41/25]]] : List Mat).getD j [])) func)).sum)) :=
  claim_C1_quadrature_formula tabSqrt diagSymeig (matmulCols diag2A) 2 1 2 [fun x => x]
    [probe34] [[[3/5, 4/5]]] [[[41/25]]] (by decide)

/-- C2: the Lanczos iteration loop terminates early at step k (before the
final loop index min(max_iter, dim) - 1) exactly when at that step every probe
in the batch has |beta_k| < 1e-4 or every probe has |alpha_k| < 1e-4, and no
earlier step satisfied that condition; the decision (brkProp) is a single
batch-wide reduction over all probes' breakdown flags, and the exit index is
common to the whole batch, so no per-probe early exit occurs. -/
theorem claim_C2_early_termination (sq : ℚ → ℚ) (mm : List Vec → List Vec)
    (maxIter : ℕ) (V : List Vec) (k : ℕ) (hk1 : 1 ≤ k)
    (hk : k < min maxIter (V.headD []).length - 1) :
    (lanczosState sq mm maxIter V).1 = k ↔
      (brkProp (stepIter sq mm k (lanczosInit sq mm V)) ∧
        ∀ j, 1 ≤ j → j < k → ¬ brkProp (stepIter sq mm j (lanczosInit sq mm V))) := by
  have hrfl : lanczosState sq mm maxIter V =
      lanczosLoopGo sq mm (min maxIter (V.headD []).length - 1) 0 (lanczosInit sq mm V) := rfl
  set fuel := min maxIter (V.headD []).length - 1 with hfuel
  set st0 := lanczosInit sq mm V with hst0
  have hkf : k ≤ fuel := by omega
  constructor
  · intro hexit
    by_cases hex : ∃ j, 1 ≤ j ∧ j ≤ fuel ∧ brkCond (stepIter sq mm j st0) = true
    · have hm := Nat.find_spec hex
      have heq := lanczosLoopGo_break sq mm (Nat.find hex) fuel 0 st0 hm.1 hm.2.1 hm.2.2
        (by
          intro j hj1 hjm
          have hnot := Nat.find_min hex hjm
          cases hbc : brkCond (stepIter sq mm j st0) with
          | false => rfl
          | true => exact absurd ⟨hj1, by omega, hbc⟩ hnot)
      rw [hrfl, heq] at hexit
      simp at hexit
      have hkm : Nat.find hex = k := by omega
      rw [hkm] at hm
      refine ⟨(brkCond_iff_brkProp _).mp hm.2.2, ?_⟩
      intro j hj1 hjk
      have hnot : ¬(1 ≤ j ∧ j ≤ fuel ∧ brkCond (stepIter sq mm j st0) = true) :=
        Nat.find_min hex (by omega)
      intro hbp
      exact hnot ⟨hj1, by omega, (brkCond_iff_brkProp _).mpr hbp⟩
    · push_neg at hex
      have heq := lanczosLoopGo_noBreak sq mm fuel 0 st0 (by
        intro j hj1 hjf
        cases hbc : brkCond (stepIter sq mm j st0) with
        | false => rfl
        | true => exact absurd hbc (hex j hj1 hjf))
      rw [hrfl, heq] at hexit
      simp at hexit
      omega
  · intro h
    have heq := lanczosLoopGo_break sq mm k fuel 0 st0 hk1 hkf
      ((brkCond_iff_brkProp _).mpr h.1)
      (by
        intro j hj1 hjk
        exact (brkCond_eq_false_iff _).mpr (h.2 j hj1 hjk))
    rw [hrfl, heq]
    simp

/-- C2 witness: under the 4×4 identity operator with the single probe
(1/2, 1/2, -1/2, -1/2) and max_iter = 4, every probe's |beta_1| = 2e-10 is
below 1e-4 at the first loop iteration, so the loop exits at k = 1, before
the final loop index 3. -/
theorem claim_C2_early_termination_witness :
    (lanczosState tabSqrt (matmulCols (idMat 4)) 4 [[1/2, 1/2, -1/2, -1/2]]).1 = 1 := by
  refine (claim_C2_early_termination tabSqrt (matmulCols (idMat 4)) 4
    [[1/2, 1/2, -1/2, -1/2]] 1 le_rfl (by decide)).mpr ⟨by decide, ?_⟩
  intro j hj1 hj2
  omega

/-- C3 counterexample: the 4×4 diagonal matrix Tc3 = diag(1, -10, -10, -10)
has monotone prefix validity with threshold K = 1 (the leading k×k block has
minimum eigenvalue ≥ -1e-4 exactly for k ≤ 1, and 1 ≤ K < 4), yet
binary_search_symeig returns 0, not K: its first midpoint is 2, which is
invalid, and the update right := mid - 1 = 1 ends the loop without ever
testing prefix size 1. -/
theorem claim_C3_counterexample :
    (1 < Tc3.length ∧
      (∀ k, 1 ≤ k → k ≤ Tc3.length →
        (-tol ≤ minEigLeading diagSymeig Tc3 k ↔ k ≤ 1))) ∧
    binary_search_symeig diagSymeig Tc3 = 0 ∧
    binary_search_symeig diagSymeig Tc3 ≠ 1 :=
  ⟨⟨by decide, by decide⟩, by decide, by decide⟩

/-- C3 as amended: under the monotone prefix-validity hypothesis with
threshold K (1 ≤ K < size(T)), the binary search never returns more than K,
and any nonzero return value is a valid prefix size; but it may return
strictly less than K, even 0, as the counterexample shows. -/
theorem claim_C3_binary_search_le_K (symeig : Mat → List ℚ × Mat) (T : Mat) (K : ℕ)
    (hK1 : 1 ≤ K) (hKn : K < T.length)
    (hmono : ∀ k, 1 ≤ k → k ≤ T.length →
      (-tol ≤ minEigLeading symeig T k ↔ k ≤ K)) :
    binary_search_symeig symeig T ≤ K ∧
      (binary_search_symeig symeig T = 0 ∨
        -tol ≤ minEigLeading symeig T (binary_search_symeig symeig T)) := by
  constructor
  · exact bssLoop_le _ K T.length hmono _ 0 T.length (Nat.zero_le K) le_rfl
  · exact bssLoop_valid _ _ 0 T.length (Or.inl rfl)

/-- C3 witness: the diagonal matrix diag(1, 1, -10) has monotone prefix
validity with threshold K = 2, and the search result is at most 2. -/
theorem claim_C3_binary_search_le_K_witness :
    binary_search_symeig diagSymeig Tc3w ≤ 2 ∧
      (binary_search_symeig diagSymeig Tc3w = 0 ∨
        -tol ≤ minEigLeading diagSymeig Tc3w (binary_search_symeig diagSymeig Tc3w)) :=
  claim_C3_binary_search_le_K diagSymeig Tc3w 2 (by decide) (by decide) (by decide)

/-- C4: breakdown is, contrary to the claim and the spec's intent, an error
in the code for intermediate depths.  On the 16-dimensional operator bigA
with the single probe u0v and max_iter = 4 (so num_iters = 4), the batch-wide
breakdown test fires at loop index k = 2 (|beta_2| ≈ 1.5e-10 < 1e-4); the
truncation then copies a 2×2 tridiagonal block into the preallocated
3×3 slice of Ts, which raises a size-mismatch error instead of returning the
2×2 matrix T the claim promises. -/
theorem claim_C4_breakdown_size_mismatch :
    (lanczosState tabSqrt mmBig 4 [u0v]).1 = 2 ∧
    lanczos_batch tabSqrt mmBig 4 [u0v] = .error .sizeMismatch :=
  ⟨by decide, by decide⟩

/-- C5 counterexample: on the 2×2 matrix Tc5 = diag(-10, -10), whose minimum
eigenvalue is below -1e-4 (so the indefiniteness fallback would run),
binary_search_symeig returns 0, refuting the claim's assertion that the
binary search itself returns at least 1. -/
theorem claim_C5_counterexample :
    listMin1 (diagSymeig Tc5).1 < -tol ∧
    binary_search_symeig diagSymeig Tc5 = 0 :=
  ⟨by decide, by decide⟩

/-- C5 as amended: the leading principal submatrix size actually used for the
re-eigendecomposition, last_proper = max(binary_search_symeig(T), 1), is
always at least 1 — the fallback never selects an empty submatrix — even
though the binary search itself may return 0. -/
theorem claim_C5_fallback_size_ge_one (symeig : Mat → List ℚ × Mat) (T : Mat) :
    1 ≤ lastProper symeig T :=
  le_max_right _ _

/-- C6: for every 1×1 tensor operator wrapping a scalar c, evaluate returns
exactly |c|, independently of which and how many functions are requested, of
the probe source, of the eigendecomposition capability and of the configured
iteration and probe counts — the shortcut fires before any probe is drawn or
any Lanczos step is run. -/
theorem claim_C6_scalar_shortcut (sq : ℚ → ℚ) (symeig : Mat → List ℚ × Mat)
    (maxIter numProbes : ℕ) (c : ℚ) (n : ℕ) (funcs : List (ℚ → ℚ)) (Vraw : List Vec) :
    evaluateEntry sq symeig maxIter numProbes (.inl [[c]]) n funcs Vraw =
      .ok (.scalar |c|) := rfl

/-- C7: whenever lanczos_batch returns, each probe's returned matrix T is the
symmetric tridiagonal matrix carrying the recorded alpha coefficients on the
main diagonal and the recorded beta coefficients from index 1 on the super-
and sub-diagonals (beta[0] appears nowhere in T); when the loop performed only
one iteration (final index 1), this same description degenerates to the 1×1
matrix [alpha_0].  The operator closure is assumed to preserve the batch
width, per its contract. -/
theorem claim_C7_tridiagonal_structure (sq : ℚ → ℚ) (mm : List Vec → List Vec)
    (maxIter : ℕ) (V : List Vec) (Qs : List (List Vec)) (Ts : List Mat)
    (hmm : ∀ W : List Vec, (mm W).length = W.length)
    (h : lanczos_batch sq mm maxIter V = .ok (Qs, Ts)) (j : ℕ) (hj : j < Ts.length) :
    Ts.getD j [] =
      tridiagMat (lanczosState sq mm maxIter V).1
        ((lanczosState sq mm maxIter V).2.alphas.getD j [])
        ((lanczosState sq mm maxIter V).2.betas.getD j []) ∧
    (∀ i1 i2, entryQ (Ts.getD j []) i1 i2 = entryQ (Ts.getD j []) i2 i1) := by
  have hsnd : (lanczosState sq mm maxIter V).2 =
      stepIter sq mm ((lanczosState sq mm maxIter V).1 - 0) (lanczosInit sq mm V) :=
    lanczosLoopGo_snd sq mm _ 0 _
  rw [Nat.sub_zero] at hsnd
  have hOK := battOK_iter sq mm V.length (lanczosInit sq mm V) hmm
    (battOK_init sq mm V hmm) (lanczosState sq mm maxIter V).1
  rw [← hsnd] at hOK
  obtain ⟨_, _, _, hal, hbe, hial, hibe⟩ := hOK
  suffices heq : Ts.getD j [] =
      tridiagMat (lanczosState sq mm maxIter V).1
        ((lanczosState sq mm maxIter V).2.alphas.getD j [])
        ((lanczosState sq mm maxIter V).2.betas.getD j []) by
    refine ⟨heq, ?_⟩
    intro i1 i2
    rw [heq]
    exact tridiagMat_symm _ _ _ i1 i2
  simp only [lanczos_batch] at h
  split at h
  · simp at h
  · rename_i hk0
    split at h
    · rename_i hk1
      rw [Except.ok.injEq] at h
      have hT := congrArg Prod.snd h
      simp only at hT
      rw [← hT] at hj ⊢
      rw [hk1]
      rw [getD_map_of_lt _ _ j [] [] (by simpa using hj)]
      rw [tridiagMat_one]
    · rename_i hk1
      split at h
      · rename_i hkN
        rw [Except.ok.injEq] at h
        have hT := congrArg Prod.snd h
        simp only at hT
        rw [← hT] at hj ⊢
        have hjal : j < (lanczosState sq mm maxIter V).2.alphas.length := by
          simp [List.length_zipWith] at hj
          omega
        have hjbe : j < (lanczosState sq mm maxIter V).2.betas.length := by
          simp [List.length_zipWith] at hj
          omega
        rw [getD_zipWith _ _ _ j [] [] [] hjal hjbe]
        have hmema : (lanczosState sq mm maxIter V).2.alphas.getD j [] ∈
            (lanczosState sq mm maxIter V).2.alphas := by
          rw [getDh _ _ hjal]
          exact List.get_mem _ _ _
        have hmemb : (lanczosState sq mm maxIter V).2.betas.getD j [] ∈
            (lanczosState sq mm maxIter V).2.betas := by
          rw [getDh _ _ hjbe]
          exact List.get_mem _ _ _
        have hlena := hial _ hmema
        have hlenb := hibe _ hmemb
        exact assembleT_eq_tridiagMat _ _ _ (by omega) (by omega) (by omega)
      · simp at h

/-- C7 witness: on the diag(1, 2) operator with probe (3, 4) and max_iter = 2
the run returns the 1×1 matrix [[41/25]] for its single probe, which matches
the tridiagonal description of its recorded coefficients. -/
theorem claim_C7_tridiagonal_structure_witness :
    ([[[(41 : ℚ)/25]]] : List Mat).getD 0 [] =
      tridiagMat (lanczosState tabSqrt (matmulCols diag2A) 2 [probe34]).1
        ((lanczosState tabSqrt (matmulCols diag2A) 2 [probe34]).2.alphas.getD 0 [])
        ((lanczosState tabSqrt (matmulCols diag2A) 2 [probe34]).2.betas.getD 0 []) ∧
    (∀ i1 i2, entryQ (([[[(41 : ℚ)/25]]] : List Mat).getD 0 []) i1 i2 =
      entryQ (([[[(41 : ℚ)/25]]] : List Mat).getD 0 []) i2 i1) :=
  claim_C7_tridiagonal_structure tabSqrt (matmulCols diag2A) 2 [probe34]
    [[[3/5, 4/5]]] [[[41/25]]] (by intro W; simp [matmulCols]) (by decide) 0 (by decide)

/-- C8 counterexample: with the operator bigA and max_iter = 4, running the
Tridiagonalizer on the batch [u0v, w1v] succeeds (the loop runs to index 3
because the probe w1v does not break down), but running it alone on the probe
u0v fails with the size-mismatch error (the batch of one breaks down at
k = 2), so the per-probe outputs of the batched run do not coincide with the
solo run on the same probe vector. -/
theorem claim_C8_counterexample :
    (lanczos_batch tabSqrt mmBig 4 [u0v, w1v]).isOk = true ∧
    (lanczos_batch tabSqrt mmBig 4 [u0v]).isOk = false :=
  ⟨by decide, by decide⟩

/-- C8 as amended: the per-step arithmetic of the Tridiagonalizer is
probe-local — for an operator closure acting column by column, the state of
probe j after any number m of break-free loop iterations on the whole batch
equals the state after m iterations run on probe j alone — but the stopping
depth and success or failure are decided batch-globally, so the returned
per-probe outputs can still differ from a solo run, as the counterexample
shows. -/
theorem claim_C8_no_cross_probe_leakage (sq : ℚ → ℚ) (f : Vec → Vec) (V : List Vec)
    (j m : ℕ) (hj : j < V.length) :
    stepIter sq (List.map f) m (lanczosInit sq (List.map f) [V.getD j []]) =
      probeSt (stepIter sq (List.map f) m (lanczosInit sq (List.map f) V)) j := by
  induction m with
  | zero =>
    simpa [stepIter] using lanczosInit_probe sq f V j hj
  | succ m ih =>
    have hstep : ∀ st : LState, stepIter sq (List.map f) (m + 1) st =
        lanczos_step_batch sq (List.map f) (stepIter sq (List.map f) m st) := by
      intro st
      simp [stepIter, Function.iterate_succ_apply']
    rw [hstep, hstep, ih]
    have hOK := battOK_iter sq (List.map f) V.length (lanczosInit sq (List.map f) V)
      (by intro W; simp) (battOK_init sq (List.map f) V (by intro W; simp)) m
    obtain ⟨hU, hrhs, hqs, hal, hbe, _, _⟩ := hOK
    exact lanczos_step_batch_probe sq f _ V.length j hj hU hrhs hqs hal hbe

/-- C8 witness: one iteration on the batch [u0v, w1v] under bigA's column
action agrees, on probe 0, with one iteration on [u0v] alone. -/
theorem claim_C8_no_cross_probe_leakage_witness :
    stepIter tabSqrt (List.map mmCol) 1
        (lanczosInit tabSqrt (List.map mmCol) [([u0v, w1v] : List Vec).getD 0 []]) =
      probeSt (stepIter tabSqrt (List.map mmCol) 1
        (lanczosInit tabSqrt (List.map mmCol) [u0v, w1v])) 0 :=
  claim_C8_no_cross_probe_leakage tabSqrt mmCol [u0v, w1v] 0 1 (by decide)

/-- C9: whenever lanczos_batch returns, the number of basis columns of each
probe's returned Q and the size of each probe's tridiagonal matrix T never
exceed min(max_iter, n), the bound on the number of Lanczos steps. -/
theorem claim_C9_size_bounds (sq : ℚ → ℚ) (mm : List Vec → List Vec) (maxIter : ℕ)
    (V : List Vec) (Qs : List (List Vec)) (Ts : List Mat)
    (h : lanczos_batch sq mm maxIter V = .ok (Qs, Ts)) :
    (∀ q ∈ Qs, q.length ≤ min maxIter (V.headD []).length) ∧
    (∀ T ∈ Ts, T.length ≤ min maxIter (V.headD []).length) := by
  have hub : (lanczosState sq mm maxIter V).1 ≤ 0 + (min maxIter (V.headD []).length - 1) :=
    lanczosLoopGo_le sq mm _ 0 _
  simp only [lanczos_batch] at h
  split at h
  · simp at h
  · rename_i hk0
    split at h
    · rename_i hk1
      have hmin : 2 ≤ min maxIter (V.headD []).length := by omega
      rw [Except.ok.injEq] at h
      have hQ := congrArg Prod.fst h
      have hT := congrArg Prod.snd h
      simp only at hQ hT
      constructor
      · intro q hq
        rw [← hQ] at hq
        obtain ⟨q0, _, rfl⟩ := List.mem_map.mp hq
        calc (q0.take 1).length ≤ 1 := List.length_take_le 1 q0
          _ ≤ _ := by omega
      · intro T hT2
        rw [← hT] at hT2
        obtain ⟨l, _, rfl⟩ := List.mem_map.mp hT2
        show ([[l.getD 0 0]] : Mat).length ≤ _
        simp only [List.length_singleton]
        omega
    · rename_i hk1
      split at h
      · rename_i hkN
        have hmin : 1 ≤ min maxIter (V.headD []).length := by omega
        rw [Except.ok.injEq] at h
        have hQ := congrArg Prod.fst h
        have hT := congrArg Prod.snd h
        simp only at hQ hT
        constructor
        · intro q hq
          rw [← hQ] at hq
          obtain ⟨q0, _, rfl⟩ := List.mem_map.mp hq
          calc (q0.take _).length
              ≤ (lanczosState sq mm maxIter V).1 := List.length_take_le _ q0
            _ ≤ _ := by omega
        · intro T hT2
          rw [← hT] at hT2
          rw [List.mem_iff_getElem] at hT2
          obtain ⟨i, hi, rfl⟩ := hT2
          rw [List.getElem_zipWith]
          refine le_trans (le_trans (length_assembleT_le _ _) (List.length_take_le _ _)) ?_
          omega
      · simp at h

/-- C9 witness: the diag(1, 2) run with max_iter = 2 returns one basis column
and a 1×1 matrix, within the bound min(2, 2) = 2. -/
theorem claim_C9_size_bounds_witness :
    (∀ q ∈ ([[[(3 : ℚ)/5, 4/5]]] : List (List Vec)),
      q.length ≤ min 2 (([probe34].headD []).length)) ∧
    (∀ T ∈ ([[[(41 : ℚ)/25]]] : List Mat),
      T.length ≤ min 2 (([probe34].headD []).length)) :=
  claim_C9_size_bounds tabSqrt (matmulCols diag2A) 2 [probe34]
    [[[3/5, 4/5]]] [[[41/25]]] (by decide)

/-- C10: lanczos_batch produces a value only when min(max_iter, dim) is at
least 2; whenever min(max_iter, dim) = 1 the loop body never runs and the
function fails with the NameError on the undefined loop variable k instead of
returning a (Q, T) pair. -/
theorem claim_C10_min_iterations (sq : ℚ → ℚ) (mm : List Vec → List Vec)
    (maxIter : ℕ) (V : List Vec) :
    (min maxIter (V.headD []).length = 1 →
      lanczos_batch sq mm maxIter V = .error .nameErrorK) ∧
    ((lanczos_batch sq mm maxIter V).isOk = true →
      2 ≤ min maxIter (V.headD []).length) := by
  constructor
  · intro h
    have h0 : min maxIter (V.headD []).length - 1 = 0 := by omega
    simp only [lanczos_batch, lanczosState, h0, lanczosLoopGo]
    rfl
  · intro hOk
    by_contra hlt
    push_neg at hlt
    have h0 : min maxIter (V.headD []).length - 1 = 0 := by omega
    have herr : lanczos_batch sq mm maxIter V = .error .nameErrorK := by
      simp only [lanczos_batch, lanczosState, h0, lanczosLoopGo]
      rfl
    rw [herr] at hOk
    simp [Except.isOk, Except.toBool] at hOk

/-- C10 witness: with max_iter = 1 on a dimension-2 operator,
min(max_iter, dim) = 1 and lanczos_batch fails with the NameError. -/
theorem claim_C10_min_iterations_witness :
    lanczos_batch tabSqrt (matmulCols diag2A) 1 [probe34] = .error .nameErrorK :=
  (claim_C10_min_iterations tabSqrt (matmulCols diag2A) 1 [probe34]).1 (by decide)

end StochasticLQ
